import Mathlib

/-!
Verification of the sqlite-vec-client repository against its specification.

The development shallowly embeds the Python sources:
  - `utils.py`: the float32 serialization codec and the metadata filter
    compiler (`build_metadata_where_clause`);
  - `validation.py`: the validation gate;
  - `base.py` (`SQLiteVecClient`): table provisioning with triggers, CRUD,
    similarity search, the transaction coordinator;
  - `pool.py` (`ConnectionPool`): the thread-scoped connection pool.

Machine-level values are embedded as natural numbers: a float32 value is
represented by its 32-bit IEEE-754 bit pattern (a `Nat` below `2 ^ 32`) and a
byte blob by a `List Nat` of values below 256.  `struct.pack`/`struct.unpack`
are exact on bit patterns, so the codec is faithfully a byte-packing function.
-/

namespace SqliteVecClient

/-! ## Serialization codec (`utils.py`, `serialize_f32` / `deserialize_f32`)

`serialize_f32` is Python `struct.pack(f"{len(v)}f", *v)`: each float32 value
is laid out as its 4 bytes (little-endian), packed contiguously.
`deserialize_f32` is `struct.unpack(f"{len(blob) // 4}f", blob)`: `struct`
demands the buffer length to be exactly `4 * (len // 4)`, so a blob whose
length is not a multiple of 4 raises `struct.error`; we embed the fallible
call as an `Option`. -/

/-- The 4 little-endian bytes of a 32-bit word (one packed float32 value). -/
def wordToBytes (w : Nat) : List Nat :=
  [w % 256, w / 256 % 256, w / 65536 % 256, w / 16777216 % 256]

/-- Reassemble a 32-bit word from its 4 little-endian bytes. -/
def wordOfBytes (b0 b1 b2 b3 : Nat) : Nat :=
  b0 + 256 * b1 + 65536 * b2 + 16777216 * b3

/-- `serialize_f32(embeddings)`: pack the float32 words contiguously. -/
def serialize_f32 (embeddings : List Nat) : List Nat :=
  (embeddings.map wordToBytes).flatten

/-- `deserialize_f32(blob)`: unpack 4 bytes at a time; a trailing fragment of
1–3 bytes makes `struct.unpack` raise, embedded as `none`. -/
def deserialize_f32 : List Nat → Option (List Nat)
  | [] => some []
  | [_] => none
  | [_, _] => none
  | [_, _, _] => none
  | b0 :: b1 :: b2 :: b3 :: rest =>
      (deserialize_f32 rest).map (fun ws => wordOfBytes b0 b1 b2 b3 :: ws)

theorem wordOfBytes_wordToBytes (w : Nat) (h : w < 4294967296) :
    wordOfBytes (w % 256) (w / 256 % 256) (w / 65536 % 256) (w / 16777216 % 256) = w := by
  unfold wordOfBytes
  omega

theorem deserialize_append_word (w : Nat) (rest : List Nat) (h : w < 4294967296) :
    deserialize_f32 (wordToBytes w ++ rest)
      = (deserialize_f32 rest).map (fun ws => w :: ws) := by
  simp only [wordToBytes, List.cons_append, List.nil_append, deserialize_f32]
  rw [wordOfBytes_wordToBytes w h]
  rfl

/-- C7: for every vector of float32 bit patterns, including the empty one,
`deserialize_f32 (serialize_f32 v) = v`; the empty vector serializes to the
empty byte sequence and deserializes back to the empty vector, not an error. -/
theorem serialize_f32_roundtrip (v : List Nat) (h : ∀ w ∈ v, w < 4294967296) :
    serialize_f32 [] = [] ∧ deserialize_f32 [] = some [] ∧
      deserialize_f32 (serialize_f32 v) = some v := by
  refine ⟨rfl, rfl, ?_⟩
  induction v with
  | nil => rfl
  | cons w ws ih =>
      have hw : w < 4294967296 := h w (List.mem_cons_self w ws)
      have hws : ∀ x ∈ ws, x < 4294967296 := fun x hx => h x (List.mem_cons_of_mem w hx)
      have : serialize_f32 (w :: ws) = wordToBytes w ++ serialize_f32 ws := by
        simp [serialize_f32]
      rw [this, deserialize_append_word w _ hw, ih hws]
      rfl

/-- Witness for C7 at a concrete vector (bit patterns of 1.0f, -2.5f, 0.0f). -/
theorem serialize_f32_roundtrip_witness :
    deserialize_f32 (serialize_f32 [1065353216, 3223322624, 0])
      = some [1065353216, 3223322624, 0] :=
  (serialize_f32_roundtrip [1065353216, 3223322624, 0] (by decide)).2.2

/-- C10: `deserialize_f32` accepts exactly the blobs whose length is a multiple
of 4, returning a vector of length `len / 4`; any other length is an error,
never a silent truncation. -/
theorem deserialize_f32_length_spec (blob : List Nat) :
    (blob.length % 4 = 0 →
        ∃ v, deserialize_f32 blob = some v ∧ v.length = blob.length / 4) ∧
      (blob.length % 4 ≠ 0 → deserialize_f32 blob = none) := by
  induction blob using deserialize_f32.induct with
  | case1 => exact ⟨fun _ => ⟨[], rfl, rfl⟩, fun h => absurd rfl h⟩
  | case2 b0 => exact ⟨fun h => by simp at h, fun _ => rfl⟩
  | case3 b0 b1 => exact ⟨fun h => by simp at h, fun _ => rfl⟩
  | case4 b0 b1 b2 => exact ⟨fun h => by simp at h, fun _ => rfl⟩
  | case5 b0 b1 b2 b3 rest ih =>
      constructor
      · intro h
        have hlen : rest.length % 4 = 0 := by
          simp only [List.length_cons] at h
          omega
        obtain ⟨v, hv, hvl⟩ := ih.1 hlen
        refine ⟨wordOfBytes b0 b1 b2 b3 :: v, ?_, ?_⟩
        · simp [deserialize_f32, hv]
        · simp only [List.length_cons, hvl]
          omega
      · intro h
        have hlen : rest.length % 4 ≠ 0 := by
          simp only [List.length_cons] at h
          omega
        simp [deserialize_f32, ih.2 hlen]

/-- Witness for C10: a well-formed 4-byte blob decodes to one word; a 5-byte
blob is rejected. -/
theorem deserialize_f32_length_spec_witness :
    (∃ v, deserialize_f32 [1, 2, 3, 4] = some v ∧ v.length = 1) ∧
      deserialize_f32 [9, 9, 9, 9, 9] = none :=
  ⟨(deserialize_f32_length_spec [1, 2, 3, 4]).1 (by decide),
    (deserialize_f32_length_spec [9, 9, 9, 9, 9]).2 (by decide)⟩

/-! ## Metadata filter compiler (`utils.py`, `build_metadata_where_clause`)

A Python filter value is a scalar: `None`, `bool`, `int`, `float`, or `str`.
The source tests `isinstance(value, bool)` before `isinstance(value, (int,
float))`, because Python's `bool` is a subclass of `int`; the embedding keeps
the five cases disjoint.  Python numbers are embedded as exact rationals
(`float(value)` is exact on every int the claims exercise). -/

inductive JVal where
  | jnull : JVal
  | jbool (b : Bool) : JVal
  | jint (n : Int) : JVal
  | jfloat (q : ℚ) : JVal
  | jstr (s : String) : JVal
deriving DecidableEq

/-- A bound SQL parameter: a text or a numeric value. -/
inductive SqlParam where
  | str (s : String) : SqlParam
  | num (q : ℚ) : SqlParam
deriving DecidableEq

/-- Python `json.dumps` of a boolean. -/
def jsonDumpsBool (b : Bool) : String :=
  if b then "true" else "false"

/-- The loop body of `build_metadata_where_clause`: one SQL condition string
and its appended parameters per filter entry, in input key order. -/
def filterConditions : List (String × JVal) → List String × List SqlParam
  | [] => ([], [])
  | (key, value) :: rest =>
      let tail := filterConditions rest
      let jsonPath := "$." ++ key
      match value with
      | .jnull =>
          ("json_extract(metadata, ?) IS NULL" :: tail.1,
            .str jsonPath :: tail.2)
      | .jbool b =>
          ("json_extract(metadata, ?) = json(?)" :: tail.1,
            .str jsonPath :: .str (jsonDumpsBool b) :: tail.2)
      | .jint n =>
          ("CAST(json_extract(metadata, ?) AS REAL) = ?" :: tail.1,
            .str jsonPath :: .num (n : ℚ) :: tail.2)
      | .jfloat q =>
          ("CAST(json_extract(metadata, ?) AS REAL) = ?" :: tail.1,
            .str jsonPath :: .num q :: tail.2)
      | .jstr s =>
          ("json_extract(metadata, ?) = ?" :: tail.1,
            .str jsonPath :: .str s :: tail.2)

/-- `build_metadata_where_clause(filters)`: the conditions joined with
`" AND "`, with the parameter list. -/
def build_metadata_where_clause (filters : List (String × JVal)) :
    String × List SqlParam :=
  let cp := filterConditions filters
  (String.intercalate " AND " cp.1, cp.2)

/-! ### Evaluation semantics of the compiled conditions

Stored metadata is a JSON document (`json.dumps` of the Python dict); the
compiled predicate runs inside SQLite.  The embedding mirrors the engine
semantics probed on SQLite 3.40:
  - `json_extract` on a missing path or a JSON `null` yields SQL NULL;
    a JSON boolean extracts to the SQL integers 1/0, a number to itself and a
    string to SQL text;
  - `x = json('true')` compares SQL text `'true'` against the extracted
    value, so it is true exactly when the stored value is the *string*
    `"true"`, never for a stored JSON boolean (integer vs text);
  - `CAST(v AS REAL)`: NULL stays NULL (and `NULL = x` is not true), booleans
    cast to 1.0/0.0, text casts by numeric-prefix parsing (optional spaces,
    sign, digits, optional fraction; exponents are not modelled as no claim
    exercises them), an extracted JSON object is its text and casts to 0;
  - SQL `=` between values of different storage classes is false. -/

inductive Json where
  | null : Json
  | bool (b : Bool) : Json
  | num (q : ℚ) : Json
  | str (s : String) : Json
  | obj (fields : List (String × Json)) : Json

/-- Look up a key in a JSON object's field list (first match). -/
def lookupField : List (String × Json) → String → Option Json
  | [], _ => none
  | (k, v) :: rest, key => if k = key then some v else lookupField rest key

/-- Walk a dotted path through nested JSON objects. -/
def jsonLookup : Json → List String → Option Json
  | j, [] => some j
  | .obj fields, k :: ks =>
      match lookupField fields k with
      | some v => jsonLookup v ks
      | none => none
  | _, _ :: _ => none

/-- Split a dotted key on `'.'` (the behaviour of Python/SQLite path
splitting for the dotted keys filters use), by structural recursion on the
character list so that concrete instances evaluate definitionally. -/
def splitDotted : List Char → List (List Char)
  | [] => [[]]
  | c :: rest =>
      if c = '.' then [] :: splitDotted rest
      else
        match splitDotted rest with
        | [] => [[c]]
        | g :: gs => (c :: g) :: gs

/-- `json_extract(metadata, "$." || key)` for a dotted key. -/
def json_extract (md : Json) (key : String) : Option Json :=
  jsonLookup md ((splitDotted key.toList).map (fun cs => String.mk cs))

/-- Value of a decimal digit string. -/
def digitsVal (cs : List Char) : Nat :=
  cs.foldl (fun a c => 10 * a + (c.toNat - 48)) 0

/-- SQLite `CAST(text AS REAL)`: numeric-prefix parse, 0 when no prefix. -/
def castTextToReal (s : String) : ℚ :=
  let cs := s.toList.dropWhile (fun c => c = ' ')
  let signed : Bool × List Char :=
    match cs with
    | '-' :: rest => (true, rest)
    | '+' :: rest => (false, rest)
    | _ => (false, cs)
  let intPart := signed.2.takeWhile Char.isDigit
  let rest := signed.2.dropWhile Char.isDigit
  let fracPart : List Char :=
    match rest with
    | '.' :: r => r.takeWhile Char.isDigit
    | _ => []
  let v : ℚ := (digitsVal intPart : ℚ) + (digitsVal fracPart : ℚ) / (10 ^ fracPart.length)
  if signed.1 then -v else v

/-- `CAST(json_extract(...) AS REAL)`: `none` is SQL NULL. -/
def castExtractedToReal : Option Json → Option ℚ
  | none => none
  | some .null => none
  | some (.bool b) => some (if b then 1 else 0)
  | some (.num q) => some q
  | some (.str s) => some (castTextToReal s)
  | some (.obj _) => some 0

/-- Truth of one compiled condition against a stored metadata document. -/
def evalCondition (md : Json) (key : String) (value : JVal) : Bool :=
  match value with
  | .jnull =>
      match json_extract md key with
      | none => true
      | some .null => true
      | some _ => false
  | .jbool b =>
      match json_extract md key with
      | some (.str s) => s = jsonDumpsBool b
      | _ => false
  | .jint n => castExtractedToReal (json_extract md key) = some (n : ℚ)
  | .jfloat q => castExtractedToReal (json_extract md key) = some q
  | .jstr s =>
      match json_extract md key with
      | some (.str s2) => s2 = s
      | _ => false

/-- A row's metadata passes the compiled WHERE clause: every condition true
(the empty conjunction is true). -/
def filterMatches (md : Json) (filters : List (String × JVal)) : Bool :=
  filters.all (fun kv => evalCondition md kv.1 kv.2)

theorem filterConditions_length (fs : List (String × JVal)) :
    (filterConditions fs).1.length = fs.length := by
  induction fs with
  | nil => rfl
  | cons kv rest ih =>
      obtain ⟨key, value⟩ := kv
      cases value <;> simp [filterConditions, ih]

/-- C6: the compiler emits one type-directed condition per entry joined by
`" AND "` in input key order; `a.b ↦ "x"` yields the equality condition with
parameters `["$.a.b", "x"]`; `k ↦ null` yields `IS NULL` with the single
parameter `"$.k"`; `n ↦ 5` (int) and `n ↦ 5.0` (float) yield the identical
float-cast condition; a boolean compares via JSON equality with parameters
path and JSON-encoded boolean, not via numeric cast. -/
theorem build_metadata_where_clause_spec :
    (∀ fs : List (String × JVal),
        (filterConditions fs).1.length = fs.length ∧
          build_metadata_where_clause fs
            = (String.intercalate " AND " (filterConditions fs).1,
                (filterConditions fs).2)) ∧
      build_metadata_where_clause [("a.b", .jstr "x")]
        = ("json_extract(metadata, ?) = ?", [.str "$.a.b", .str "x"]) ∧
      build_metadata_where_clause [("k", .jnull)]
        = ("json_extract(metadata, ?) IS NULL", [.str "$.k"]) ∧
      build_metadata_where_clause [("n", .jint 5)]
        = build_metadata_where_clause [("n", .jfloat 5)] ∧
      build_metadata_where_clause [("n", .jint 5)]
        = ("CAST(json_extract(metadata, ?) AS REAL) = ?",
            [.str "$.n", .num 5]) ∧
      build_metadata_where_clause [("f", .jbool true)]
        = ("json_extract(metadata, ?) = json(?)",
            [.str "$.f", .str (jsonDumpsBool true)]) ∧
      build_metadata_where_clause [("a", .jstr "x"), ("b", .jint 1)]
        = ("json_extract(metadata, ?) = ? AND CAST(json_extract(metadata, ?) AS REAL) = ?",
            [.str "$.a", .str "x", .str "$.b", .num 1]) :=
  ⟨fun fs => ⟨filterConditions_length fs, rfl⟩, rfl, rfl, rfl, rfl, rfl, rfl⟩

/-! ## Error taxonomy (`exceptions.py`) and validation gate (`validation.py`)

Python raises exceptions; fallible embedded operations return `Except VecErr`.
`DimensionMismatchError` is a kind distinct from `ValidationError` in the
source hierarchy, mirrored by distinct constructors. -/

inductive VecErr where
  | validationError (msg : String) : VecErr
  | tableNameError (msg : String) : VecErr
  | dimensionMismatchError (msg : String) : VecErr
  | tableNotFoundError (msg : String) : VecErr
deriving DecidableEq

/-- `validate_top_k`: positive integer required. -/
def validate_top_k (top_k : Int) : Except VecErr Unit :=
  if top_k ≤ 0 then .error (.validationError "top_k must be a positive integer")
  else .ok ()

/-- `validate_limit`: positive integer required. -/
def validate_limit (limit : Int) : Except VecErr Unit :=
  if limit ≤ 0 then .error (.validationError "limit must be a positive integer")
  else .ok ()

/-- `validate_offset`: non-negative integer required. -/
def validate_offset (offset : Int) : Except VecErr Unit :=
  if offset < 0 then .error (.validationError "offset must be a non-negative integer")
  else .ok ()

/-- `validate_embeddings_match`: texts, embeddings, and (if given) metadata
lists must have equal lengths. -/
def validate_embeddings_match (texts : List String) (embeddings : List (List Nat))
    (metadata : Option (List Json)) : Except VecErr Unit :=
  if texts.length ≠ embeddings.length then
    .error (.validationError "Number of texts must match number of embeddings")
  else
    match metadata with
    | some md =>
        if texts.length ≠ md.length then
          .error (.validationError "Number of texts must match number of metadata")
        else .ok ()
    | none => .ok ()

/-- `validate_embedding_dimension`: raises the distinct
`DimensionMismatchError` when a vector's length differs from the bound
dimension.  Present in `validation.py` but, notably, never invoked from any
operation in `base.py`. -/
def validate_embedding_dimension (embedding : List Nat) (expected_dim : Nat) :
    Except VecErr Unit :=
  if embedding.length ≠ expected_dim then
    .error (.dimensionMismatchError "Embedding dimension does not match expected")
  else .ok ()

/-- Modelled from the spec: `validate_metadata_filters` is imported by
`base.py` from `validation.py`, but its definition is absent from the source
under `src/`.  Spec §4.3: "empty filter map should be rejected by validation
before reaching the compiler". -/
def validate_metadata_filters (filters : List (String × JVal)) : Except VecErr Unit :=
  if filters.isEmpty then
    .error (.validationError "filters cannot be empty")
  else .ok ()

/-! ## Record table, vec index table, and triggers (`base.py`)

`create_table` provisions the base table `{table}` (rowid INTEGER PRIMARY KEY
AUTOINCREMENT, text, metadata, text_embedding), the `vec0` virtual table
`{table}_vec` (rowid, text_embedding), and three triggers: AFTER INSERT
mirrors `(new.rowid, new.text_embedding)` into the vec table, AFTER UPDATE OF
text_embedding overwrites the vec row, AFTER DELETE removes it.  The state
machine below embeds one connection's view of both tables; the triggers are
inlined into the three primitive statements, which are the only writers of
`vec` — mirroring the source, where no code path writes `{table}_vec`
directly.  `seq` is the AUTOINCREMENT high-water mark (`sqlite_sequence`):
a fresh rowid is one more than the largest rowid that ever existed, so
rowids are never reused. -/

structure Row where
  text : String
  metadata : Json
  emb : List Nat

structure DBState where
  records : List (Nat × Row)
  vec : List (Nat × List Nat)
  seq : Nat

/-- State of a freshly provisioned table. -/
def freshDB : DBState := ⟨[], [], 0⟩

/-- `SELECT COALESCE(MAX(rowid), 0)`. -/
def maxRowid (records : List (Nat × Row)) : Nat :=
  records.foldl (fun a p => max a p.1) 0

/-- The rowid AUTOINCREMENT assigns to the next inserted row. -/
def nextRowid (st : DBState) : Nat :=
  max st.seq (maxRowid st.records) + 1

/-- `INSERT INTO {table}(text, metadata, text_embedding) VALUES (?,?,?)`,
with the AFTER INSERT trigger mirroring into the vec table. -/
def insertRow (st : DBState) (r : Row) : DBState × Nat :=
  let rid := nextRowid st
  (⟨st.records ++ [(rid, r)], st.vec ++ [(rid, r.emb)], rid⟩, rid)

/-- `executemany` of the insert statement; returns the assigned rowids. -/
def insertManyRows (st : DBState) (rows : List Row) : DBState × List Nat :=
  match rows with
  | [] => (st, [])
  | r :: rest =>
      let first := insertRow st r
      let others := insertManyRows first.1 rest
      (others.1, first.2 :: others.2)

/-- The non-`None` fields of an `update` call (`SET` list entries). -/
structure UpdateFields where
  text : Option String
  metadata : Option Json
  emb : Option (List Nat)

def applyFields (u : UpdateFields) (r : Row) : Row :=
  ⟨u.text.getD r.text, u.metadata.getD r.metadata, u.emb.getD r.emb⟩

def rowidExists (records : List (Nat × Row)) (rid : Nat) : Bool :=
  records.any (fun p => p.1 = rid)

/-- `UPDATE {table} SET ... WHERE rowid = ?`; when the SET list contains
`text_embedding`, the AFTER UPDATE OF text_embedding trigger overwrites the
vec row of each updated row (a no-op when the rowid is absent, since then no
row was updated and the trigger did not fire). -/
def updateRow (st : DBState) (rid : Nat) (u : UpdateFields) : DBState × Nat :=
  let records := st.records.map (fun p => if p.1 = rid then (p.1, applyFields u p.2) else p)
  let vec :=
    match u.emb with
    | some e => st.vec.map (fun p => if p.1 = rid then (p.1, e) else p)
    | none => st.vec
  (⟨records, vec, st.seq⟩, if rowidExists st.records rid then 1 else 0)

/-- `DELETE FROM {table} WHERE rowid = ?`, with the AFTER DELETE trigger
removing the vec row. -/
def deleteRow (st : DBState) (rid : Nat) : DBState × Nat :=
  (⟨st.records.filter (fun p => p.1 ≠ rid), st.vec.filter (fun p => p.1 ≠ rid), st.seq⟩,
    if rowidExists st.records rid then 1 else 0)

/-- One mutating Record Access call, at the level of its table effect.
`add` carries the already-zipped rows; `update`/`update_many` skip entries
whose SET list is empty (`if not sets`); `delete_many` chunks its IN-list,
which removes the same rowid set as deleting one by one. -/
inductive Op where
  | add (rows : List Row) : Op
  | update (rid : Nat) (u : UpdateFields) : Op
  | update_many (us : List (Nat × UpdateFields)) : Op
  | delete (rid : Nat) : Op
  | delete_many (rids : List Nat) : Op

def emptyFields (u : UpdateFields) : Bool :=
  u.text.isNone && u.metadata.isNone && u.emb.isNone

def applyOp (st : DBState) : Op → DBState
  | .add rows => (insertManyRows st rows).1
  | .update rid u => if emptyFields u then st else (updateRow st rid u).1
  | .update_many us =>
      us.foldl (fun s p => if emptyFields p.2 then s else (updateRow s p.1 p.2).1) st
  | .delete rid => (deleteRow st rid).1
  | .delete_many rids => rids.foldl (fun s r => (deleteRow s r).1) st

def runOps (ops : List Op) : DBState :=
  ops.foldl applyOp freshDB

/-! ### The trigger-maintained consistency invariant (C1) -/

def rowToVec (p : Nat × Row) : Nat × List Nat := (p.1, p.2.emb)

/-- The vec table is exactly the rowid/embedding projection of the record
table, the record table's rowids are distinct, and every rowid is at most the
AUTOINCREMENT high-water mark. -/
def Inv (st : DBState) : Prop :=
  st.vec = st.records.map rowToVec ∧
    (st.records.map Prod.fst).Nodup ∧
    ∀ k ∈ st.records.map Prod.fst, k ≤ st.seq

theorem maxRowid_ge (records : List (Nat × Row)) :
    ∀ p ∈ records, p.1 ≤ maxRowid records := by
  have general : ∀ (l : List (Nat × Row)) (a : Nat),
      a ≤ l.foldl (fun a p => max a p.1) a ∧
        ∀ p ∈ l, p.1 ≤ l.foldl (fun a p => max a p.1) a := by
    intro l
    induction l with
    | nil => exact fun a => ⟨le_refl a, by simp⟩
    | cons q t ih =>
        intro a
        refine ⟨le_trans (le_max_left a q.1) (ih (max a q.1)).1, ?_⟩
        intro p hp
        rcases List.mem_cons.mp hp with h | h
        · subst h
          exact le_trans (le_max_right a p.1) (ih (max a p.1)).1
        · exact (ih (max a q.1)).2 p h
  exact (general records 0).2

theorem Inv_fresh : Inv freshDB :=
  ⟨rfl, List.nodup_nil, by simp [freshDB]⟩

theorem Inv_insertRow (st : DBState) (r : Row) (h : Inv st) :
    Inv (insertRow st r).1 := by
  obtain ⟨hvec, hnodup, hseq⟩ := h
  have hfresh : ∀ k ∈ st.records.map Prod.fst, k < nextRowid st := by
    intro k hk
    exact lt_of_le_of_lt (hseq k hk) (by unfold nextRowid; omega)
  refine ⟨?_, ?_, ?_⟩
  · simp [insertRow, hvec, rowToVec]
  · simp only [insertRow, List.map_append, List.map_cons, List.map_nil]
    rw [List.nodup_append]
    refine ⟨hnodup, List.nodup_singleton _, ?_⟩
    intro k hk hmem
    have : k = nextRowid st := by simpa using hmem
    exact absurd (this ▸ hfresh k hk) (lt_irrefl _)
  · intro k hk
    simp only [insertRow, List.map_append, List.map_cons, List.map_nil,
      List.mem_append, List.mem_singleton] at hk
    rcases hk with hk | hk
    · exact le_of_lt (hfresh k hk)
    · simp [insertRow, hk]

theorem Inv_insertManyRows (st : DBState) (rows : List Row) (h : Inv st) :
    Inv (insertManyRows st rows).1 := by
  induction rows generalizing st with
  | nil => exact h
  | cons r rest ih => exact ih (insertRow st r).1 (Inv_insertRow st r h)

theorem Inv_updateRow (st : DBState) (rid : Nat) (u : UpdateFields) (h : Inv st) :
    Inv (updateRow st rid u).1 := by
  obtain ⟨hvec, hnodup, hseq⟩ := h
  have hkeys : ((updateRow st rid u).1.records.map Prod.fst) = st.records.map Prod.fst := by
    simp only [updateRow, List.map_map]
    refine List.map_congr_left ?_
    intro p _
    by_cases hp : p.1 = rid <;> simp [hp]
  refine ⟨?_, hkeys ▸ hnodup, ?_⟩
  · cases hu : u.emb with
    | none =>
        simp only [updateRow, hu, hvec, List.map_map]
        refine (List.map_congr_left ?_).symm
        intro p _
        by_cases hp : p.1 = rid <;> simp [hp, rowToVec, applyFields, hu]
    | some e =>
        simp only [updateRow, hu, hvec, List.map_map]
        refine (List.map_congr_left ?_).symm
        intro p _
        by_cases hp : p.1 = rid <;> simp [hp, rowToVec, applyFields, hu]
  · intro k hk
    rw [hkeys] at hk
    exact hseq k hk

theorem map_rowToVec_filter (l : List (Nat × Row)) (q : Nat → Bool) :
    (l.map rowToVec).filter (fun p => q p.1) = (l.filter (fun p => q p.1)).map rowToVec := by
  induction l with
  | nil => rfl
  | cons p t ih =>
      by_cases hp : q p.1
      · simp [rowToVec, List.filter_cons, hp, ih]
      · simp [rowToVec, List.filter_cons, hp, ih]

theorem Inv_deleteRow (st : DBState) (rid : Nat) (h : Inv st) :
    Inv (deleteRow st rid).1 := by
  obtain ⟨hvec, hnodup, hseq⟩ := h
  refine ⟨?_, ?_, ?_⟩
  · simp only [deleteRow, hvec]
    exact map_rowToVec_filter st.records (fun k => k ≠ rid)
  · have : ((st.records.filter (fun p => p.1 ≠ rid)).map Prod.fst).Sublist
        (st.records.map Prod.fst) := (List.filter_sublist st.records).map Prod.fst
    exact this.nodup hnodup
  · intro k hk
    simp only [deleteRow, List.mem_map] at hk
    obtain ⟨p, hp, hpk⟩ := hk
    exact hpk ▸ hseq p.1 (List.mem_map_of_mem Prod.fst (List.mem_of_mem_filter hp))

theorem Inv_applyOp (st : DBState) (op : Op) (h : Inv st) : Inv (applyOp st op) := by
  cases op with
  | add rows => exact Inv_insertManyRows st rows h
  | update rid u =>
      by_cases he : emptyFields u
      · simpa [applyOp, he] using h
      · simpa [applyOp, he] using Inv_updateRow st rid u h
  | update_many us =>
      simp only [applyOp]
      induction us generalizing st with
      | nil => exact h
      | cons p rest ih =>
          by_cases he : emptyFields p.2
          · simpa [he] using ih st h
          · simpa [he] using ih (updateRow st p.1 p.2).1 (Inv_updateRow st p.1 p.2 h)
  | delete rid => exact Inv_deleteRow st rid h
  | delete_many rids =>
      simp only [applyOp]
      induction rids generalizing st with
      | nil => exact h
      | cons r rest ih => exact ih (deleteRow st r).1 (Inv_deleteRow st r h)

theorem Inv_runOps (ops : List Op) : Inv (runOps ops) := by
  have general : ∀ (l : List Op) (st : DBState), Inv st → Inv (l.foldl applyOp st) := by
    intro l
    induction l with
    | nil => exact fun st h => h
    | cons op rest ih => exact fun st h => ih (applyOp st op) (Inv_applyOp st op h)
  exact general ops freshDB Inv_fresh

theorem filter_key_single (l : List (Nat × Row)) (rid : Nat) (r : Row)
    (hnodup : (l.map Prod.fst).Nodup) (hmem : (rid, r) ∈ l) :
    l.filter (fun p => p.1 = rid) = [(rid, r)] := by
  induction l with
  | nil => exact absurd hmem (List.not_mem_nil _)
  | cons q t ih =>
      simp only [List.map_cons, List.nodup_cons] at hnodup
      rcases List.mem_cons.mp hmem with h | h
      · subst h
        have hnone : t.filter (fun p => p.1 = rid) = [] := by
          refine List.filter_eq_nil_iff.mpr ?_
          intro p hp
          simp only [decide_eq_true_eq]
          intro hpk
          have hmem1 : p.1 ∈ t.map Prod.fst := List.mem_map_of_mem Prod.fst hp
          rw [hpk] at hmem1
          exact hnodup.1 hmem1
        simp [List.filter_cons, hnone]
      · have hq : ¬(q.1 = rid) := by
          intro hqk
          exact hnodup.1 (by
            have : rid ∈ t.map Prod.fst := by
              simpa using List.mem_map_of_mem Prod.fst h
            exact hqk ▸ this)
        simp only [List.filter_cons, decide_eq_true_eq]
        rw [if_neg hq]
        exact ih hnodup.2 h

/-- C1: after any sequence of add / update / update_many / delete /
delete_many calls on a freshly provisioned table, every rowid of the record
table has exactly one vec-index row, carrying the same embedding bytes, and
no vec row exists for an absent rowid.  The vec table is written only by the
trigger effects inlined in the three primitive statements. -/
theorem triggers_keep_index_consistent (ops : List Op) :
    (∀ rid r, (rid, r) ∈ (runOps ops).records →
        (runOps ops).vec.filter (fun p => p.1 = rid) = [(rid, r.emb)]) ∧
      ∀ rid e, (rid, e) ∈ (runOps ops).vec →
        ∃ r, (rid, r) ∈ (runOps ops).records ∧ e = r.emb := by
  obtain ⟨hvec, hnodup, _⟩ := Inv_runOps ops
  constructor
  · intro rid r hmem
    rw [hvec, map_rowToVec_filter (runOps ops).records (fun k => k = rid),
      filter_key_single (runOps ops).records rid r hnodup hmem]
    rfl
  · intro rid e hmem
    rw [hvec] at hmem
    obtain ⟨p, hp, hpe⟩ := List.mem_map.mp hmem
    obtain ⟨h1, h2⟩ := Prod.mk.injEq _ _ _ _ ▸ hpe
    refine ⟨p.2, ?_, h2.symm⟩
    have hp2 : (p.1, p.2) ∈ (runOps ops).records := by simpa using hp
    rwa [h1] at hp2

/-- Witness for C1 after a concrete op sequence: the single added row's vec
entry is exactly its rowid and embedding bytes. -/
theorem triggers_keep_index_consistent_witness :
    (runOps [Op.add [⟨"a", Json.obj [], [0, 0, 0, 0]⟩]]).vec.filter
        (fun p => p.1 = 1) = [(1, [0, 0, 0, 0])] :=
  (triggers_keep_index_consistent [Op.add [⟨"a", Json.obj [], [0, 0, 0, 0]⟩]]).1
    1 ⟨"a", Json.obj [], [0, 0, 0, 0]⟩ (List.mem_singleton.mpr rfl)

/-! ## Connection commit model and transaction coordinator (`base.py`)

A connection holds the durable (committed) state and the state seen by the
connection's own statements (`current`); `commit` makes `current` durable and
`rollback` discards uncommitted work.  Every mutating call in `base.py` ends
with `if not self._in_transaction: self.connection.commit()`.  The
`transaction()` context manager sets `_in_transaction`, runs the body, commits
once on normal exit, rolls back and re-raises on an exception, and clears the
flag in a `finally` block.  The body is embedded as the list of mutating calls
that actually executed, plus an optional error raised after them. -/

structure Conn where
  committed : DBState
  current : DBState

def commitConn (c : Conn) : Conn := ⟨c.current, c.current⟩

def rollbackConn (c : Conn) : Conn := ⟨c.committed, c.committed⟩

structure Client where
  conn : Conn
  in_transaction : Bool

/-- One mutating Record Access call: execute the statement(s) on the
connection, then auto-commit unless a transaction scope is active. -/
def runMutOp (c : Client) (op : Op) : Client :=
  let conn1 : Conn := ⟨c.conn.committed, applyOp c.conn.current op⟩
  if c.in_transaction then ⟨conn1, c.in_transaction⟩
  else ⟨commitConn conn1, c.in_transaction⟩

def execOps (c : Client) (ops : List Op) : Client :=
  ops.foldl runMutOp c

/-- The `transaction()` context manager around a body that executed `ops` and
then either returned normally (`raised = none`) or raised `raised`. -/
def transactionScope (c : Client) (ops : List Op) (raised : Option String) :
    Client × Option String :=
  let c2 := execOps ⟨c.conn, true⟩ ops
  match raised with
  | none => (⟨commitConn c2.conn, false⟩, none)
  | some e => (⟨rollbackConn c2.conn, false⟩, some e)

/-- `SELECT COUNT(1)` on the base table. -/
def rowCount (st : DBState) : Nat :=
  st.records.length

theorem execOps_in_tx (ops : List Op) (c : Client) (h : c.in_transaction = true) :
    (execOps c ops).conn.committed = c.conn.committed ∧
      (execOps c ops).conn.current = ops.foldl applyOp c.conn.current ∧
      (execOps c ops).in_transaction = true := by
  induction ops generalizing c with
  | nil => exact ⟨rfl, rfl, h⟩
  | cons op rest ih =>
      have hstep : runMutOp c op
          = ⟨⟨c.conn.committed, applyOp c.conn.current op⟩, true⟩ := by
        simp [runMutOp, h]
      have hexec : execOps c (op :: rest)
          = execOps ⟨⟨c.conn.committed, applyOp c.conn.current op⟩, true⟩ rest := by
        simp only [execOps, List.foldl_cons]
        rw [← hstep]
      have ihh := ih ⟨⟨c.conn.committed, applyOp c.conn.current op⟩, true⟩ rfl
      rw [hexec]
      simp only [List.foldl_cons]
      exact ⟨ihh.1, ihh.2.1, ihh.2.2⟩

theorem rowCount_insertManyRows (st : DBState) (rows : List Row) :
    rowCount (insertManyRows st rows).1 = rowCount st + rows.length := by
  induction rows generalizing st with
  | nil => rfl
  | cons r rest ih =>
      have : rowCount (insertRow st r).1 = rowCount st + 1 := by
        simp [insertRow, rowCount]
      simp only [insertManyRows, ih (insertRow st r).1, this, List.length_cons]
      omega

theorem rowCount_foldl_add (rowss : List (List Row)) (st : DBState) :
    rowCount ((rowss.map Op.add).foldl applyOp st)
      = rowCount st + (rowss.map List.length).sum := by
  induction rowss generalizing st with
  | nil => simp
  | cons rows rest ih =>
      simp only [List.map_cons, List.foldl_cons, List.sum_cons]
      rw [ih (applyOp st (Op.add rows))]
      have : rowCount (applyOp st (Op.add rows)) = rowCount st + rows.length :=
        rowCount_insertManyRows st rows
      omega

/-- C2: within a scope the deferred-commit flag is set and every mutating call
executes its statement without committing; a normal exit commits the deferred
mutations exactly once (N rows plus M added rows yields committed count N+M);
an error rolls back to the pre-scope state (count stays N) and is re-raised;
and the flag is cleared on both exit paths. -/
theorem transaction_scope_spec (c : Client) (ops : List Op) (e : String)
    (hsync : c.conn.current = c.conn.committed) :
    ((execOps ⟨c.conn, true⟩ ops).conn.committed = c.conn.committed ∧
        (execOps ⟨c.conn, true⟩ ops).conn.current = ops.foldl applyOp c.conn.current ∧
        (execOps ⟨c.conn, true⟩ ops).in_transaction = true) ∧
      (transactionScope c ops none).1.conn.committed = ops.foldl applyOp c.conn.current ∧
      (transactionScope c ops none).2 = none ∧
      (transactionScope c ops none).1.in_transaction = false ∧
      (transactionScope c ops (some e)).1.conn.committed = c.conn.committed ∧
      (transactionScope c ops (some e)).1.conn.current = c.conn.committed ∧
      (transactionScope c ops (some e)).2 = some e ∧
      (transactionScope c ops (some e)).1.in_transaction = false ∧
      (∀ rowss : List (List Row),
          rowCount (transactionScope c (rowss.map Op.add) none).1.conn.committed
            = rowCount c.conn.committed + (rowss.map List.length).sum) ∧
      ∀ rowss : List (List Row),
          rowCount (transactionScope c (rowss.map Op.add) (some e)).1.conn.committed
            = rowCount c.conn.committed := by
  have hrun := execOps_in_tx ops ⟨c.conn, true⟩ rfl
  refine ⟨hrun, ?_, rfl, rfl, ?_, ?_, rfl, rfl, ?_, ?_⟩
  · simp only [transactionScope, commitConn]
    exact hrun.2.1
  · simp only [transactionScope, rollbackConn]
    exact hrun.1
  · simp only [transactionScope, rollbackConn]
    exact hrun.1
  · intro rowss
    have hr := execOps_in_tx (rowss.map Op.add) ⟨c.conn, true⟩ rfl
    simp only [transactionScope, commitConn]
    rw [hr.2.1, hsync]
    exact rowCount_foldl_add rowss c.conn.committed
  · intro rowss
    have hr := execOps_in_tx (rowss.map Op.add) ⟨c.conn, true⟩ rfl
    simp only [transactionScope, rollbackConn]
    rw [hr.1]

/-- Witness for C2 at a concrete client: a scope adding one row and exiting
normally commits count 0+1; a scope that raises leaves the committed count at
0 and re-raises. -/
theorem transaction_scope_spec_witness :
    rowCount (transactionScope ⟨⟨freshDB, freshDB⟩, false⟩
        (([[⟨"a", Json.obj [], [0, 0, 0, 0]⟩]]).map Op.add) none).1.conn.committed
      = rowCount (⟨⟨freshDB, freshDB⟩, false⟩ : Client).conn.committed
        + (([[(⟨"a", Json.obj [], [0, 0, 0, 0]⟩ : Row)]]).map List.length).sum ∧
      rowCount (transactionScope ⟨⟨freshDB, freshDB⟩, false⟩
          (([[⟨"a", Json.obj [], [0, 0, 0, 0]⟩]]).map Op.add) (some "boom")).1.conn.committed
        = rowCount (⟨⟨freshDB, freshDB⟩, false⟩ : Client).conn.committed ∧
      (transactionScope ⟨⟨freshDB, freshDB⟩, false⟩ [] (some "boom")).2 = some "boom" := by
  have T := transaction_scope_spec ⟨⟨freshDB, freshDB⟩, false⟩ [] "boom" rfl
  exact ⟨T.2.2.2.2.2.2.2.2.1 [[⟨"a", Json.obj [], [0, 0, 0, 0]⟩]],
    T.2.2.2.2.2.2.2.2.2 [[⟨"a", Json.obj [], [0, 0, 0, 0]⟩]], T.2.2.2.2.2.2.1⟩

/-! ## Record Access API (`base.py`)

`add(texts, embeddings, metadata=None)` validates the list shapes, fills in
empty metadata dicts, serializes each embedding, reads
`SELECT COALESCE(MAX(rowid), 0)` immediately before one batched insert,
computes the returned rowids as `range(max_before + 1, max_before +
len(texts) + 1)`, and auto-commits unless a transaction is open.  Exactly as
in the source, no per-vector dimension check is performed anywhere in the
call and the client retains no bound dimension (the dimension appears only in
the `vec0` DDL at provisioning). -/

def clientAdd (c : Client) (texts : List String) (embeddings : List (List Nat))
    (metadata : Option (List Json)) : Except VecErr (Client × List Nat) :=
  match validate_embeddings_match texts embeddings metadata with
  | .error err => .error err
  | .ok _ =>
      let md := metadata.getD (texts.map fun _ => Json.obj [])
      let rows := List.zipWith
        (fun t (p : Json × List Nat) => Row.mk t p.1 (serialize_f32 p.2))
        texts (md.zip embeddings)
      let max_before := maxRowid c.conn.current.records
      let inserted := insertManyRows c.conn.current rows
      let rowids := (List.range texts.length).map (fun i => max_before + 1 + i)
      let conn1 : Conn := ⟨c.conn.committed, inserted.1⟩
      if c.in_transaction then .ok (⟨conn1, true⟩, rowids)
      else .ok (⟨commitConn conn1, false⟩, rowids)

/-- `delete(rowid)`: execute the delete (triggers included), auto-commit
unless in a transaction, report whether a row was removed. -/
def clientDelete (c : Client) (rid : Nat) : Client × Bool :=
  let d := deleteRow c.conn.current rid
  let conn1 : Conn := ⟨c.conn.committed, d.1⟩
  if c.in_transaction then (⟨conn1, true⟩, d.2 == 1)
  else (⟨commitConn conn1, false⟩, d.2 == 1)

/-- `update(rowid, text=None, metadata=None, embedding=None)`: build the SET
list from the non-`None` fields (serializing the embedding), return `False`
without executing when it is empty, otherwise execute and auto-commit unless
in a transaction.  Its return type exhibits that no error — in particular no
dimension-mismatch error — can be raised. -/
def clientUpdate (c : Client) (rid : Nat) (text : Option String)
    (metadata : Option Json) (embedding : Option (List Nat)) : Client × Bool :=
  let u : UpdateFields := ⟨text, metadata, embedding.map serialize_f32⟩
  if emptyFields u then (c, false)
  else
    let r := updateRow c.conn.current rid u
    let conn1 : Conn := ⟨c.conn.committed, r.1⟩
    if c.in_transaction then (⟨conn1, true⟩, r.2 == 1)
    else (⟨commitConn conn1, false⟩, r.2 == 1)

/-- Insertion of one element into a list sorted by `le`. -/
def insertSorted (le : α → α → Bool) (x : α) : List α → List α
  | [] => [x]
  | y :: ys => if le x y then x :: y :: ys else y :: insertSorted le x ys

/-- Insertion sort (`ORDER BY`). -/
def sortBy (le : α → α → Bool) : List α → List α
  | [] => []
  | x :: xs => insertSorted le x (sortBy le xs)

/-- The inner join `{table} INNER JOIN {table}_vec ... WHERE text_embedding
MATCH ? AND k = ? ORDER BY distance`: the engine ranks the rows by distance
to the query blob and keeps the `k` nearest.  The engine's distance function
is an external capability, embedded as the parameter `distFn` applied to the
query blob and the stored embedding blob. -/
def annTopK (st : DBState) (distFn : List Nat → List Nat → ℚ) (query : List Nat)
    (k : Nat) : List (Nat × Row × ℚ) :=
  (sortBy (fun a b => decide (a.2.2 ≤ b.2.2))
    (st.records.map (fun p => (p.1, p.2, distFn query p.2.emb)))).take k

/-- `similarity_search(embedding, top_k)`: validates `top_k` only — the query
embedding's dimension is never checked — then runs the join. -/
def similarity_search (st : DBState) (distFn : List Nat → List Nat → ℚ)
    (embedding : List Nat) (top_k : Int) : Except VecErr (List (Nat × String × ℚ)) :=
  match validate_top_k top_k with
  | .error err => .error err
  | .ok _ =>
      .ok ((annTopK st distFn (serialize_f32 embedding) top_k.toNat).map
        (fun r => (r.1, r.2.1.text, r.2.2)))

def exceptIsOk : Except VecErr α → Bool
  | .ok _ => true
  | .error _ => false

def exceptClient (r : Except VecErr (Client × List Nat)) (dflt : Client) : Client :=
  match r with
  | .ok p => p.1
  | .error _ => dflt

def exceptRowids (r : Except VecErr (Client × List Nat)) : List Nat :=
  match r with
  | .ok p => p.2
  | .error _ => []

/-! ### C5: returned rowids versus actually assigned rowids -/

theorem maxRowid_append_single (l : List (Nat × Row)) (k : Nat) (r : Row) :
    maxRowid (l ++ [(k, r)]) = max (maxRowid l) k := by
  unfold maxRowid
  rw [List.foldl_append]
  rfl

theorem insertManyRows_assigned (rows : List Row) (st : DBState)
    (h : st.seq = maxRowid st.records) :
    (insertManyRows st rows).2
        = (List.range rows.length).map (fun i => st.seq + 1 + i) ∧
      (insertManyRows st rows).1.records.map Prod.fst
        = st.records.map Prod.fst ++ (insertManyRows st rows).2 ∧
      (insertManyRows st rows).1.seq = st.seq + rows.length := by
  induction rows generalizing st with
  | nil => exact ⟨rfl, by simp [insertManyRows], rfl⟩
  | cons r rest ih =>
      have hrid : nextRowid st = st.seq + 1 := by
        unfold nextRowid
        omega
      have hst1 : (insertRow st r).1
          = ⟨st.records ++ [(st.seq + 1, r)], st.vec ++ [(st.seq + 1, r.emb)], st.seq + 1⟩ := by
        simp [insertRow, hrid]
      have h1 : (insertRow st r).1.seq = maxRowid (insertRow st r).1.records := by
        rw [hst1]
        simp only [maxRowid_append_single]
        omega
      obtain ⟨ha, hk, hs⟩ := ih (insertRow st r).1 h1
      have hseq1 : (insertRow st r).1.seq = st.seq + 1 := by rw [hst1]
      refine ⟨?_, ?_, ?_⟩
      · show nextRowid st :: (insertManyRows (insertRow st r).1 rest).2
          = (List.range (rest.length + 1)).map (fun i => st.seq + 1 + i)
        rw [List.range_succ_eq_map, List.map_cons, List.map_map, hrid, ha, hseq1]
        refine congrArg (fun l => (st.seq + 1) :: l) ?_
        refine List.map_congr_left ?_
        intro i _
        simp only [Function.comp_apply, Nat.succ_eq_add_one]
        omega
      · show (insertManyRows (insertRow st r).1 rest).1.records.map Prod.fst
          = st.records.map Prod.fst
            ++ (nextRowid st :: (insertManyRows (insertRow st r).1 rest).2)
        rw [hk, hst1]
        simp only [List.map_append, List.map_cons, List.map_nil, List.append_assoc,
          List.cons_append, List.nil_append]
        rw [hrid]
      · show (insertManyRows (insertRow st r).1 rest).1.seq = st.seq + (rest.length + 1)
        rw [hs, hseq1]
        omega

theorem validate_embeddings_match_lengths (texts : List String)
    (embeddings : List (List Nat)) (metadata : Option (List Json))
    (hv : validate_embeddings_match texts embeddings metadata = .ok ()) :
    texts.length = embeddings.length ∧
      ∀ md, metadata = some md → texts.length = md.length := by
  constructor
  · by_contra hne
    simp [validate_embeddings_match, hne] at hv
  · intro md hmd
    subst hmd
    by_contra hne
    have hte : texts.length = embeddings.length := by
      by_contra hne2
      simp [validate_embeddings_match, hne2] at hv
    simp [validate_embeddings_match, hte, hne] at hv
    exact hne (hte.trans hv)

/-- C5 counterexample: on a fresh table, add one row (rowid 1), delete it,
then add again: the AUTOINCREMENT allocator never reuses rowids, so the new
row is assigned rowid 2, while `add` returns `[1]` computed from
`MAX(rowid) = 0`. -/
theorem clientAdd_rowids_counterexample :
    exceptRowids (clientAdd
        ((clientDelete
          (exceptClient (clientAdd ⟨⟨freshDB, freshDB⟩, false⟩ ["a"] [[0]] none)
            ⟨⟨freshDB, freshDB⟩, false⟩) 1).1)
        ["b"] [[0]] none) = [1] ∧
      (exceptClient (clientAdd
          ((clientDelete
            (exceptClient (clientAdd ⟨⟨freshDB, freshDB⟩, false⟩ ["a"] [[0]] none)
              ⟨⟨freshDB, freshDB⟩, false⟩) 1).1)
          ["b"] [[0]] none)
        ⟨⟨freshDB, freshDB⟩, false⟩).conn.current.records.map Prod.fst = [2] ∧
      ([1] : List Nat) ≠ [2] :=
  ⟨rfl, rfl, by decide⟩

/-- C5 (amended): `add` always returns the contiguous range of length
`len(texts)` starting at `max_before + 1`; these equal the rowids actually
assigned whenever the AUTOINCREMENT high-water mark equals the current
maximum rowid — e.g. on an append-only history, the spec's own stated
assumption — which fails once the maximal row has been deleted. -/
theorem clientAdd_rowids_spec (c : Client) (texts : List String)
    (embeddings : List (List Nat)) (metadata : Option (List Json))
    (hv : validate_embeddings_match texts embeddings metadata = .ok ())
    (hseq : c.conn.current.seq = maxRowid c.conn.current.records) :
    ∃ c1 : Client,
      clientAdd c texts embeddings metadata
          = .ok (c1, (List.range texts.length).map
              (fun i => maxRowid c.conn.current.records + 1 + i)) ∧
        c1.conn.current.records.map Prod.fst
          = c.conn.current.records.map Prod.fst
            ++ (List.range texts.length).map
              (fun i => maxRowid c.conn.current.records + 1 + i) := by
  obtain ⟨hte, hmd⟩ := validate_embeddings_match_lengths texts embeddings metadata hv
  have hmdlen : (metadata.getD (texts.map fun _ => Json.obj [])).length = texts.length := by
    cases metadata with
    | none => simp
    | some md => simpa using (hmd md rfl).symm
  have hrowslen : (List.zipWith
      (fun t (p : Json × List Nat) => Row.mk t p.1 (serialize_f32 p.2))
      texts ((metadata.getD (texts.map fun _ => Json.obj [])).zip embeddings)).length
      = texts.length := by
    simp only [List.length_zipWith, List.length_zip, hmdlen, ← hte]
    omega
  obtain ⟨ha, hk, _⟩ := insertManyRows_assigned
    (List.zipWith (fun t (p : Json × List Nat) => Row.mk t p.1 (serialize_f32 p.2))
      texts ((metadata.getD (texts.map fun _ => Json.obj [])).zip embeddings))
    c.conn.current (hseq.symm ▸ rfl)
  rw [hrowslen, hseq] at ha
  by_cases htx : c.in_transaction
  · refine ⟨⟨⟨c.conn.committed,
      (insertManyRows c.conn.current
        (List.zipWith (fun t (p : Json × List Nat) => Row.mk t p.1 (serialize_f32 p.2))
          texts ((metadata.getD (texts.map fun _ => Json.obj [])).zip embeddings))).1⟩,
      true⟩, ?_, ?_⟩
    · simp [clientAdd, hv, htx]
    · rw [hk, ha]
  · refine ⟨⟨commitConn ⟨c.conn.committed,
      (insertManyRows c.conn.current
        (List.zipWith (fun t (p : Json × List Nat) => Row.mk t p.1 (serialize_f32 p.2))
          texts ((metadata.getD (texts.map fun _ => Json.obj [])).zip embeddings))).1⟩,
      false⟩, ?_, ?_⟩
    · simp [clientAdd, hv, htx]
    · show (insertManyRows c.conn.current
          (List.zipWith (fun t (p : Json × List Nat) => Row.mk t p.1 (serialize_f32 p.2))
            texts ((metadata.getD (texts.map fun _ => Json.obj [])).zip embeddings))).1.records.map Prod.fst
        = _
      rw [hk, ha]

/-- Witness for C5 (amended) on a fresh table: the returned rowids `[1]` are
also the assigned rowids. -/
theorem clientAdd_rowids_spec_witness :
    ∃ c1 : Client,
      clientAdd ⟨⟨freshDB, freshDB⟩, false⟩ ["a"] [[0]] none = .ok (c1, [1]) ∧
        c1.conn.current.records.map Prod.fst = [1] :=
  clientAdd_rowids_spec ⟨⟨freshDB, freshDB⟩, false⟩ ["a"] [[0]] none rfl rfl

/-! ### C3: the per-vector dimension check is never invoked -/

/-- C3: the repository's own tests (`tests/test_client.py`) expect `add`,
`similarity_search` (and by the spec also `update`) to raise the distinct
`DimensionMismatchError` for a vector whose length differs from the bound
dimension, and `validation.py` provides `validate_embedding_dimension` for
exactly that; but no operation in `base.py` calls it — the client does not
even retain the dimension.  Concretely, on a table provisioned with
dimension 3, `add` with a 2-dimensional embedding executes the insert (an
8-byte blob reaches the table), `update` stores a 2-dimensional embedding
and reports success, and `similarity_search` with a 2-dimensional query runs
the search — none of them raises the dimension-mismatch error the dead
validator would have raised. -/
theorem dimension_check_never_runs :
    exceptIsOk (clientAdd ⟨⟨freshDB, freshDB⟩, false⟩ ["a"] [[5, 6]] none) = true ∧
      (exceptClient (clientAdd ⟨⟨freshDB, freshDB⟩, false⟩ ["a"] [[5, 6]] none)
          ⟨⟨freshDB, freshDB⟩, false⟩).conn.current.records.map
          (fun p => p.2.emb.length) = [8] ∧
      validate_embedding_dimension [5, 6] 3
        = .error (.dimensionMismatchError "Embedding dimension does not match expected") ∧
      (clientUpdate (exceptClient (clientAdd ⟨⟨freshDB, freshDB⟩, false⟩ ["a"] [[5, 6]] none)
          ⟨⟨freshDB, freshDB⟩, false⟩) 1 none none (some [5, 6])).2 = true ∧
      similarity_search
          (exceptClient (clientAdd ⟨⟨freshDB, freshDB⟩, false⟩ ["a"] [[5, 6]] none)
            ⟨⟨freshDB, freshDB⟩, false⟩).conn.current
          (fun _ _ => 0) [5, 6] 1
        = .ok [(1, "a", 0)] :=
  ⟨rfl, rfl, rfl, rfl, rfl⟩

/-! ## Metadata-filter queries and filtered similarity search (`base.py`) -/

/-- `filter_by_metadata(filters, limit, offset)`: validate the filters, then
the pagination, compile the WHERE clause, and run
`SELECT ... WHERE {where} ORDER BY rowid ASC LIMIT ? OFFSET ?`. -/
def filter_by_metadata (st : DBState) (filters : List (String × JVal))
    (limit offset : Int) : Except VecErr (List (Nat × Row)) :=
  match validate_metadata_filters filters with
  | .error e => .error e
  | .ok _ =>
      match validate_limit limit with
      | .error e => .error e
      | .ok _ =>
          match validate_offset offset with
          | .error e => .error e
          | .ok _ =>
              .ok ((((sortBy (fun a b => decide (a.1 ≤ b.1)) st.records).filter
                (fun p => filterMatches p.2.metadata filters)).drop offset.toNat).take
                limit.toNat)

/-- `count_by_metadata(filters)`: validate, compile, and
`SELECT COUNT(1) ... WHERE {where}`. -/
def count_by_metadata (st : DBState) (filters : List (String × JVal)) :
    Except VecErr Nat :=
  match validate_metadata_filters filters with
  | .error e => .error e
  | .ok _ =>
      .ok ((st.records.filter (fun p => filterMatches p.2.metadata filters)).length)

/-- `similarity_search_with_filter(embedding, filters, top_k)`: validate
`top_k`, then the filters, then run the subquery that takes the `top_k`
nearest candidates from the index and apply the compiled WHERE clause as an
outer filter over that fixed candidate set — no re-query backfills removed
candidates. -/
def similarity_search_with_filter (st : DBState)
    (distFn : List Nat → List Nat → ℚ) (embedding : List Nat)
    (filters : List (String × JVal)) (top_k : Int) :
    Except VecErr (List (Nat × String × ℚ)) :=
  match validate_top_k top_k with
  | .error e => .error e
  | .ok _ =>
      match validate_metadata_filters filters with
      | .error e => .error e
      | .ok _ =>
          .ok (((annTopK st distFn (serialize_f32 embedding) top_k.toNat).filter
            (fun r => filterMatches r.2.1.metadata filters)).map
            (fun r => (r.1, r.2.1.text, r.2.2)))

/-- C4: every query taking a filter mapping rejects the empty mapping in its
validation step, before the compiler runs (`validate_metadata_filters` is
spec-modelled: its definition is absent from `src/`); and the compiler
applied to the empty mapping emits no conditions, whose conjunction is the
always-true predicate excluding no rows. -/
theorem empty_filters_spec :
    (∀ (st : DBState) (limit offset : Int),
        filter_by_metadata st [] limit offset
          = .error (.validationError "filters cannot be empty")) ∧
      (∀ st : DBState, count_by_metadata st []
          = .error (.validationError "filters cannot be empty")) ∧
      (∀ (st : DBState) (distFn : List Nat → List Nat → ℚ)
          (embedding : List Nat) (k : Int), 0 < k →
          similarity_search_with_filter st distFn embedding [] k
            = .error (.validationError "filters cannot be empty")) ∧
      filterConditions [] = ([], []) ∧
      build_metadata_where_clause [] = ("", []) ∧
      (∀ md : Json, filterMatches md [] = true) ∧
      ∀ l : List (Nat × Row), l.filter (fun p => filterMatches p.2.metadata []) = l := by
  refine ⟨fun st limit offset => rfl, fun st => rfl, ?_, rfl, rfl, fun md => rfl, ?_⟩
  · intro st distFn embedding k hk
    have : ¬(k ≤ 0) := by omega
    simp [similarity_search_with_filter, validate_top_k, this,
      validate_metadata_filters]
  · intro l
    simp [filterMatches]

/-- Witness for C4: concrete empty-filter calls error out. -/
theorem empty_filters_spec_witness :
    similarity_search_with_filter freshDB (fun _ _ => 0) [0] [] 5
        = .error (.validationError "filters cannot be empty") ∧
      filter_by_metadata freshDB [] 10 0
        = .error (.validationError "filters cannot be empty") :=
  ⟨empty_filters_spec.2.2.1 freshDB (fun _ _ => 0) [0] 5 (by decide),
    empty_filters_spec.1 freshDB 10 0⟩

/-! ### C8: filtered similarity search bounds and soundness -/

theorem mem_insertSorted (le : α → α → Bool) (x : α) (l : List α) (y : α) :
    y ∈ insertSorted le x l ↔ y = x ∨ y ∈ l := by
  induction l with
  | nil => simp [insertSorted]
  | cons z zs ih =>
      by_cases h : le x z
      · simp [insertSorted, h]
      · simp only [insertSorted, if_neg h, List.mem_cons, ih]
        tauto

theorem mem_sortBy (le : α → α → Bool) (l : List α) (y : α) :
    y ∈ sortBy le l ↔ y ∈ l := by
  induction l with
  | nil => simp [sortBy]
  | cons z zs ih =>
      simp only [sortBy, mem_insertSorted, List.mem_cons, ih]

/-- C8: when `similarity_search_with_filter` returns rows, it returns at most
`top_k` of them; each returned rowid is a record whose stored metadata
satisfies the compiled predicate; and the result is exactly the compiled
filter applied over the fixed `top_k` candidate set, with no re-query. -/
theorem similarity_search_with_filter_spec (st : DBState)
    (distFn : List Nat → List Nat → ℚ) (embedding : List Nat)
    (filters : List (String × JVal)) (k : Int)
    (rows : List (Nat × String × ℚ))
    (h : similarity_search_with_filter st distFn embedding filters k = .ok rows) :
    rows.length ≤ k.toNat ∧
      (∀ res ∈ rows, ∃ r : Row, (res.1, r) ∈ st.records ∧
          filterMatches r.metadata filters = true) ∧
      rows = ((annTopK st distFn (serialize_f32 embedding) k.toNat).filter
        (fun r => filterMatches r.2.1.metadata filters)).map
        (fun r => (r.1, r.2.1.text, r.2.2)) := by
  by_cases hk : k ≤ 0
  · simp [similarity_search_with_filter, validate_top_k, hk] at h
  by_cases hf : filters.isEmpty
  · simp [similarity_search_with_filter, validate_top_k, hk,
      validate_metadata_filters, hf] at h
  have hfe : filters.isEmpty = false := by simpa using hf
  have hrows : rows = ((annTopK st distFn (serialize_f32 embedding) k.toNat).filter
      (fun r => filterMatches r.2.1.metadata filters)).map
      (fun r => (r.1, r.2.1.text, r.2.2)) := by
    simp [similarity_search_with_filter, validate_top_k, hk,
      validate_metadata_filters, hfe] at h
    exact h.symm
  refine ⟨?_, ?_, hrows⟩
  · rw [hrows, List.length_map]
    calc ((annTopK st distFn (serialize_f32 embedding) k.toNat).filter
          (fun r => filterMatches r.2.1.metadata filters)).length
        ≤ (annTopK st distFn (serialize_f32 embedding) k.toNat).length :=
          List.length_filter_le _ _
      _ ≤ k.toNat := by
          unfold annTopK
          rw [List.length_take]
          exact min_le_left _ _
  · intro res hres
    rw [hrows] at hres
    obtain ⟨cand, hcand, hproj⟩ := List.mem_map.mp hres
    obtain ⟨hcmem, hcfilt⟩ := List.mem_filter.mp hcand
    have hcands : cand ∈ (sortBy (fun a b => decide (a.2.2 ≤ b.2.2))
        (st.records.map (fun p => (p.1, p.2, distFn (serialize_f32 embedding) p.2.emb)))) :=
      List.mem_of_mem_take hcmem
    rw [mem_sortBy] at hcands
    obtain ⟨p, hp, hpc⟩ := List.mem_map.mp hcands
    refine ⟨cand.2.1, ?_, by simpa using hcfilt⟩
    have h1 : cand.1 = p.1 := by rw [← hpc]
    have h2 : cand.2.1 = p.2 := by rw [← hpc]
    have hres1 : res.1 = cand.1 := by rw [← hproj]
    rw [hres1, h1, h2]
    simpa using hp

/-- Concrete one-row table for the C8 witness. -/
def c8DB : DBState :=
  (insertRow freshDB ⟨"a", Json.obj [("k", Json.str "x")], [0, 0, 0, 0]⟩).1

/-- Witness for C8: on a one-row table whose metadata matches the filter,
the call returns that row; the theorem's conclusions hold at it. -/
theorem similarity_search_with_filter_spec_witness :
    ([(1, "a", (0 : ℚ))] : List (Nat × String × ℚ)).length ≤ (1 : Int).toNat ∧
      (∀ res ∈ ([(1, "a", (0 : ℚ))] : List (Nat × String × ℚ)),
          ∃ r : Row, (res.1, r) ∈ c8DB.records ∧
            filterMatches r.metadata [("k", JVal.jstr "x")] = true) ∧
      ([(1, "a", (0 : ℚ))] : List (Nat × String × ℚ))
        = ((annTopK c8DB (fun _ _ => 0) (serialize_f32 [0]) (1 : Int).toNat).filter
          (fun r => filterMatches r.2.1.metadata [("k", JVal.jstr "x")])).map
          (fun r => (r.1, r.2.1.text, r.2.2)) :=
  similarity_search_with_filter_spec c8DB (fun _ _ => 0) [0]
    [("k", JVal.jstr "x")] 1 [(1, "a", 0)] rfl

/-! ## Connection pool (`pool.py`, `ConnectionPool`)

One connection per calling thread: `get_connection` first consults the
thread-local slot and returns the held connection unconditionally; otherwise,
under the lock, it raises `RuntimeError("Connection pool exhausted ...")`
when `created >= pool_size`, else invokes the factory, increments `created`,
tracks the connection and stores it thread-locally.  Threads are embedded as
natural-number identifiers, connections as their creation index, and the
thread-local slots as an association list.  `close_all` is not involved in
the claim (it is the only operation resetting `created`). -/

structure PoolState where
  pool_size : Nat
  created : Nat
  all_connections : List Nat
  thread_conn : List (Nat × Nat)

def assocLookup : List (Nat × Nat) → Nat → Option Nat
  | [], _ => none
  | (k, v) :: rest, key => if k = key then some v else assocLookup rest key

/-- `ConnectionPool.__init__`: `pool_size` must be at least 1. -/
def mkPool (pool_size : Nat) : Except String PoolState :=
  if pool_size < 1 then .error "pool_size must be at least 1"
  else .ok ⟨pool_size, 0, [], []⟩

/-- `get_connection()` called from thread `t`. -/
def get_connection (p : PoolState) (t : Nat) : PoolState × Except String Nat :=
  match assocLookup p.thread_conn t with
  | some cid => (p, .ok cid)
  | none =>
      if p.pool_size ≤ p.created then (p, .error "Connection pool exhausted")
      else
        (⟨p.pool_size, p.created + 1, p.all_connections ++ [p.created],
          p.thread_conn ++ [(t, p.created)]⟩, .ok p.created)

/-- A sequence of `get_connection` requests, by calling thread. -/
def runRequests (p : PoolState) (ts : List Nat) : PoolState :=
  ts.foldl (fun s t => (get_connection s t).1) p

def PoolInv (p : PoolState) : Prop :=
  p.created ≤ p.pool_size ∧ p.all_connections.length = p.created

theorem PoolInv_step (p : PoolState) (t : Nat) (h : PoolInv p) :
    PoolInv (get_connection p t).1 := by
  unfold get_connection
  cases hl : assocLookup p.thread_conn t with
  | some cid => exact h
  | none =>
      by_cases hc : p.pool_size ≤ p.created
      · simp only [hc, if_true]
        exact h
      · simp only [hc, if_false]
        refine ⟨?_, ?_⟩
        · show p.created + 1 ≤ p.pool_size
          omega
        · show (p.all_connections ++ [p.created]).length = p.created + 1
          simp [h.2]

theorem PoolInv_runRequests (ts : List Nat) (p : PoolState) (h : PoolInv p) :
    PoolInv (runRequests p ts) := by
  induction ts generalizing p with
  | nil => exact h
  | cons t rest ih => exact ih (get_connection p t).1 (PoolInv_step p t h)

theorem assocLookup_append_single (l : List (Nat × Nat)) (k v key : Nat)
    (hk : k ≠ key) : assocLookup (l ++ [(k, v)]) key = assocLookup l key := by
  induction l with
  | nil => simp [assocLookup, hk]
  | cons q rest ih =>
      by_cases hq : q.1 = key
      · simp [assocLookup, hq]
      · simp [assocLookup, hq, ih]

theorem runRequests_fill (ts : List Nat) (p : PoolState)
    (hn : ts.Nodup) (hfresh : ∀ t ∈ ts, assocLookup p.thread_conn t = none)
    (hcap : p.created + ts.length ≤ p.pool_size) :
    (runRequests p ts).created = p.created + ts.length ∧
      (runRequests p ts).pool_size = p.pool_size ∧
      ∀ t2, t2 ∉ ts →
        assocLookup (runRequests p ts).thread_conn t2
          = assocLookup p.thread_conn t2 := by
  induction ts generalizing p with
  | nil => exact ⟨rfl, rfl, fun t2 _ => rfl⟩
  | cons t rest ih =>
      have hnc : ¬(p.pool_size ≤ p.created) := by
        simp only [List.length_cons] at hcap
        omega
      have hstep : (get_connection p t).1
          = ⟨p.pool_size, p.created + 1, p.all_connections ++ [p.created],
              p.thread_conn ++ [(t, p.created)]⟩ := by
        simp [get_connection, hfresh t (List.mem_cons_self t rest), hnc]
      have hrest : ∀ t2 ∈ rest, assocLookup (p.thread_conn ++ [(t, p.created)]) t2 = none := by
        intro t2 ht2
        have hne : t ≠ t2 := by
          intro hEq
          exact (List.nodup_cons.mp hn).1 (hEq ▸ ht2)
        rw [assocLookup_append_single p.thread_conn t p.created t2 hne]
        exact hfresh t2 (List.mem_cons_of_mem t ht2)
      have hcap2 : p.created + 1 + rest.length ≤ p.pool_size := by
        simp only [List.length_cons] at hcap
        omega
      have ihh := ih ⟨p.pool_size, p.created + 1, p.all_connections ++ [p.created],
          p.thread_conn ++ [(t, p.created)]⟩ (List.nodup_cons.mp hn).2 hrest hcap2
      have hrun : runRequests p (t :: rest)
          = runRequests ⟨p.pool_size, p.created + 1, p.all_connections ++ [p.created],
              p.thread_conn ++ [(t, p.created)]⟩ rest := by
        simp only [runRequests, List.foldl_cons]
        rw [hstep]
      rw [hrun]
      refine ⟨?_, ihh.2.1, ?_⟩
      · rw [ihh.1]
        show p.created + 1 + rest.length = p.created + (t :: rest).length
        simp only [List.length_cons]
        omega
      intro t2 ht2
      have hne : t ≠ t2 := fun hEq => ht2 (hEq ▸ List.mem_cons_self t rest)
      rw [ihh.2.2 t2 (fun hmem => ht2 (List.mem_cons_of_mem t hmem))]
      exact assocLookup_append_single p.thread_conn t p.created t2 hne

theorem mkPool_ok (size : Nat) (p0 : PoolState) (h : mkPool size = .ok p0) :
    p0 = ⟨size, 0, [], []⟩ ∧ 1 ≤ size := by
  by_cases hs : size < 1
  · simp [mkPool, hs] at h
  · simp only [mkPool, if_neg hs, Except.ok.injEq] at h
    exact ⟨h.symm, by omega⟩

/-- C9: starting from a pool of capacity S, the number of connections ever
created never exceeds S over any request sequence (and equals the number
tracked for teardown); a thread already holding a connection gets the
identical connection back with no state change and no capacity consult; and
once S distinct threads are served, a fresh thread's first request fails
immediately with the capacity error, with no state change (no blocking,
queueing or eviction). -/
theorem pool_capacity_spec :
    (∀ (size : Nat) (p0 : PoolState), mkPool size = .ok p0 →
        ∀ ts : List Nat, (runRequests p0 ts).created ≤ size ∧
          (runRequests p0 ts).all_connections.length = (runRequests p0 ts).created) ∧
      (∀ (p : PoolState) (t cid : Nat), assocLookup p.thread_conn t = some cid →
          get_connection p t = (p, .ok cid)) ∧
      (∀ (p : PoolState) (t : Nat), assocLookup p.thread_conn t = none →
          p.pool_size ≤ p.created →
          get_connection p t = (p, .error "Connection pool exhausted")) ∧
      ∀ (size : Nat) (p0 : PoolState) (ts : List Nat) (tNew : Nat),
        mkPool size = .ok p0 → ts.Nodup → ts.length = size → tNew ∉ ts →
        get_connection (runRequests p0 ts) tNew
          = (runRequests p0 ts, .error "Connection pool exhausted") := by
  refine ⟨?_, ?_, ?_, ?_⟩
  · intro size p0 h ts
    obtain ⟨hp0, hs⟩ := mkPool_ok size p0 h
    have := PoolInv_runRequests ts p0 (by rw [hp0]; exact ⟨Nat.zero_le size, rfl⟩)
    have hsz : (runRequests p0 ts).pool_size = size := by
      have general : ∀ (l : List Nat) (p : PoolState),
          (runRequests p l).pool_size = p.pool_size := by
        intro l
        induction l with
        | nil => exact fun p => rfl
        | cons t rest ih =>
            intro p
            rw [show runRequests p (t :: rest) = runRequests (get_connection p t).1 rest from rfl,
              ih (get_connection p t).1]
            unfold get_connection
            cases hl : assocLookup p.thread_conn t with
            | some cid => rfl
            | none =>
                by_cases hc : p.pool_size ≤ p.created
                · simp [hc]
                · simp [hc]
      rw [general ts p0, hp0]
    exact ⟨hsz ▸ this.1, this.2⟩
  · intro p t cid h
    simp [get_connection, h]
  · intro p t h hcap
    simp [get_connection, h, hcap]
  · intro size p0 ts tNew h hn hlen htNew
    obtain ⟨hp0, hs⟩ := mkPool_ok size p0 h
    subst hp0
    have hfill := runRequests_fill ts ⟨size, 0, [], []⟩ hn (fun t _ => rfl)
      (by show 0 + ts.length ≤ size; omega)
    have hlk : assocLookup (runRequests ⟨size, 0, [], []⟩ ts).thread_conn tNew = none :=
      hfill.2.2 tNew htNew
    have hcap : (runRequests ⟨size, 0, [], []⟩ ts).pool_size
        ≤ (runRequests ⟨size, 0, [], []⟩ ts).created := by
      rw [hfill.1, hfill.2.1]
      simp [hlen]
    simp [get_connection, hlk, hcap]

/-- Witness for C9: a pool of size 1 serving thread 7 errors on thread 8's
first request, and a held connection is returned identically. -/
theorem pool_capacity_spec_witness :
    get_connection (runRequests ⟨1, 0, [], []⟩ [7]) 8
        = (runRequests ⟨1, 0, [], []⟩ [7], .error "Connection pool exhausted") ∧
      get_connection ⟨1, 1, [0], [(7, 0)]⟩ 7 = (⟨1, 1, [0], [(7, 0)]⟩, .ok 0) :=
  ⟨pool_capacity_spec.2.2.2 1 ⟨1, 0, [], []⟩ [7] 8 rfl (by decide) rfl (by decide),
    pool_capacity_spec.2.1 ⟨1, 1, [0], [(7, 0)]⟩ 7 0 rfl⟩

end SqliteVecClient
